import Mathlib

/-!
Verification of the WebChess move-projection and selection/highlight state
machine, shallowly embedded from `src/main.js` (the most complete draft in
the repository, the one defining `checkAndSetPotentialMove`,
`displayPotentialMoves`, `clearPreviousActive`, `updateActiveState`,
`moveToSelectedPosition` and `handleSquareClicked`).

Embedding conventions:
* The JavaScript 8×8 `board` array of `BoardSquare` records is modelled as a
  total function `Position → BoardSquare` with `Position = Int × Int`;
  the source only ever reads or writes in-bounds cells (it guards with
  `row >= 0 && row < BOARD_DIMENSION && ...` before access), so the values at
  out-of-bounds positions are irrelevant.
* The DOM is modelled by the `displayedColor` field of each square: the
  element `Square{row}{col}` exists exactly for in-bounds `(row, col)`
  (that is what `createBoard` creates), so `document.getElementById(...)`
  returning `null` is modelled by an in-bounds test, and
  `element.style.backgroundColor = c` by updating `displayedColor`.
  Moving the piece `img` children around in `moveToSelectedPosition` is
  purely visual and has no counterpart beyond the `piece` fields.
* The mutable globals `board`, `activePos` and `moveablePositions` form the
  `GameState` record; every mutating function becomes a function
  `GameState → GameState` (and `checkAndSetPotentialMove`, which also
  returns a boolean, becomes `GameState → ... → Bool × GameState`).
* Bounded `for` loops over fixed ranges (`displayKnightMoves`,
  `displayKingMoves`) are unrolled, preserving the exact iteration order;
  the early-exit loop of `displayMovesInDirection` (`for i = 1; i < 8`)
  becomes structural recursion on the remaining iteration count.
-/

inductive PieceType where
  | pawn
  | rook
  | knight
  | bishop
  | queen
  | king
deriving DecidableEq, Repr

inductive Color where
  | black
  | white
deriving DecidableEq, Repr

structure Piece where
  type : PieceType
  color : Color
deriving DecidableEq, Repr

/-- A board square record, as in the `BoardSquare` typedef of `main.js`,
extended with `displayedColor`, which models the square's DOM element's
current `style.backgroundColor`. -/
structure BoardSquare where
  piece : Option Piece
  active : Bool
  moveable : Bool
  backgroundColor : String
  displayedColor : String
deriving DecidableEq, Repr

abbrev Position := Int × Int

abbrev Board := Position → BoardSquare

/-- The three mutable globals of `main.js`: `board`, `activePos`,
`moveablePositions`. -/
structure GameState where
  board : Board
  activePos : Option Position
  moveablePositions : List Position

def BOARD_DIMENSION : Int := 8

def POTENTIAL_MOVE_COLOR : String := "green"

def ACTIVE_COLOR : String := "red"

/-- The bounds guard `row >= 0 && row < BOARD_DIMENSION && col >= 0 && col < BOARD_DIMENSION`
used by `checkAndSetPotentialMove`; also exactly the set of positions for
which the DOM element `Square{row}{col}` exists. -/
def InBounds (row col : Int) : Prop :=
  0 ≤ row ∧ row < BOARD_DIMENSION ∧ 0 ≤ col ∧ col < BOARD_DIMENSION

instance (row col : Int) : Decidable (InBounds row col) := by
  unfold InBounds
  infer_instance

/-- Pointwise update of one square of the board. -/
def updSquare (b : Board) (p : Position) (f : BoardSquare → BoardSquare) : Board :=
  fun q => if q = p then f (b q) else b q

/-- Reads the piece of a square, `board[row][col].piece`. -/
def pieceFn (s : GameState) (q : Position) : Option Piece :=
  (s.board q).piece

/-- The condition `board[row][col].piece == null || pieceColor != board[row][col].piece.color`. -/
def canMoveTo (op : Option Piece) (pieceColor : Color) : Bool :=
  match op with
  | none => true
  | some p => decide (pieceColor ≠ p.color)

/-- Embeds `checkAndSetPotentialMove(row, col, pieceColor)`: when the square
is in bounds (which is also when its DOM element exists) and is empty or
enemy-occupied, it is colored `POTENTIAL_MOVE_COLOR`, marked `moveable` and
appended to `moveablePositions`; the returned boolean
(`board[row][col].piece == null`) tells the caller whether to keep scanning
the current direction. -/
def checkAndSetPotentialMove (s : GameState) (row col : Int) (pieceColor : Color) :
    Bool × GameState :=
  if InBounds row col then
    if canMoveTo (s.board (row, col)).piece pieceColor then
      let b :=
        updSquare s.board (row, col)
          (fun sq => { sq with displayedColor := POTENTIAL_MOVE_COLOR, moveable := true })
      ((s.board (row, col)).piece.isNone,
        { board := b,
          activePos := s.activePos,
          moveablePositions := s.moveablePositions ++ [(row, col)] })
    else (false, s)
  else (false, s)

/-- State effect of `checkAndSetPotentialMove` when the caller discards the
returned boolean (knight, king and pawn moves do). -/
def chk (s : GameState) (row col : Int) (pieceColor : Color) : GameState :=
  (checkAndSetPotentialMove s row col pieceColor).2

/-- Embeds `displayPawnMoves(color, row, col)`. -/
def displayPawnMoves (s : GameState) (color : Color) (row col : Int) : GameState :=
  match color with
  | Color.white => chk s (row - 1) col color
  | Color.black => chk s (row + 1) col color

/-- The loop body of `displayMovesInDirection`: `n` is the number of loop
iterations still allowed (the source runs `i = 1` to `i = 7`), `i` the
current loop counter; the loop stops early when `checkAndSetPotentialMove`
returns `false`. -/
def dirLoop (row col rowDir colDir : Int) (color : Color) : Nat → Int → GameState → GameState
  | 0, _, s => s
  | Nat.succ n, i, s =>
    let r := checkAndSetPotentialMove s (row - i * rowDir) (col - i * colDir) color
    if r.1 then dirLoop row col rowDir colDir color n (i + 1) r.2 else r.2

/-- Embeds `displayMovesInDirection(row, col, rowDir, colDir, color)`:
`for (let i = 1; i < BOARD_DIMENSION; i++)` stepping to
`(row - i * rowDir, col - i * colDir)` until a check fails. -/
def displayMovesInDirection (s : GameState) (row col rowDir colDir : Int) (color : Color) :
    GameState :=
  dirLoop row col rowDir colDir color 7 1 s

/-- Embeds `displayRookMoves(row, col, color)`: the four axis directions, in
source order. -/
def displayRookMoves (s : GameState) (row col : Int) (color : Color) : GameState :=
  displayMovesInDirection
    (displayMovesInDirection
      (displayMovesInDirection
        (displayMovesInDirection s row col (-1) 0 color)
        row col 1 0 color)
      row col 0 (-1) color)
    row col 0 1 color

/-- Embeds `displayKnightMoves(row, col, color)`: the two-iteration loop
(`i = 1` with `colAmount = 2`, then `i = 2` with `colAmount = 1`) unrolled
in source order. -/
def displayKnightMoves (s : GameState) (row col : Int) (color : Color) : GameState :=
  chk (chk (chk (chk (chk (chk (chk (chk s
    (row - 1) (col - 2) color)
    (row - 1) (col + 2) color)
    (row + 1) (col - 2) color)
    (row + 1) (col + 2) color)
    (row - 2) (col - 1) color)
    (row - 2) (col + 1) color)
    (row + 2) (col - 1) color)
    (row + 2) (col + 1) color

/-- Embeds `displayBishopMoves(row, col, color)`: the four diagonal
directions, in source order. -/
def displayBishopMoves (s : GameState) (row col : Int) (color : Color) : GameState :=
  displayMovesInDirection
    (displayMovesInDirection
      (displayMovesInDirection
        (displayMovesInDirection s row col 1 1 color)
        row col (-1) 1 color)
      row col (-1) (-1) color)
    row col 1 (-1) color

/-- Embeds `displayQueenMoves(row, col, color)`: bishop rays then rook rays. -/
def displayQueenMoves (s : GameState) (row col : Int) (color : Color) : GameState :=
  displayRookMoves (displayBishopMoves s row col color) row col color

/-- Embeds `displayKingMoves(row, col, color)`: the nested
`r = row-1 .. row+1`, `c = col-1 .. col+1` loops unrolled in source order,
skipping the center `(row, col)`. -/
def displayKingMoves (s : GameState) (row col : Int) (color : Color) : GameState :=
  chk (chk (chk (chk (chk (chk (chk (chk s
    (row - 1) (col - 1) color)
    (row - 1) col color)
    (row - 1) (col + 1) color)
    row (col - 1) color)
    row (col + 1) color)
    (row + 1) (col - 1) color)
    (row + 1) col color)
    (row + 1) (col + 1) color

/-- Embeds `displayPotentialMoves(piece, row, col)`. The `default` branch of
the source `switch` throws on a value outside the six piece types; the Lean
`PieceType` is a closed inductive, so that branch is unrepresentable. -/
def displayPotentialMoves (s : GameState) (piece : Piece) (row col : Int) : GameState :=
  match piece.type with
  | PieceType.pawn => displayPawnMoves s piece.color row col
  | PieceType.rook => displayRookMoves s row col piece.color
  | PieceType.knight => displayKnightMoves s row col piece.color
  | PieceType.bishop => displayBishopMoves s row col piece.color
  | PieceType.queen => displayQueenMoves s row col piece.color
  | PieceType.king => displayKingMoves s row col piece.color

/-- The body of the `forEach` in `clearPreviousActive`: restore the
square's displayed color (only when its DOM element exists, i.e. in
bounds) and unconditionally reset its `moveable` flag. -/
def clearMoveable (b : Board) (pos : Position) : Board :=
  if InBounds pos.1 pos.2 then
    updSquare b pos (fun sq => { sq with displayedColor := sq.backgroundColor, moveable := false })
  else
    updSquare b pos (fun sq => { sq with moveable := false })

/-- Embeds `clearPreviousActive()`: when a square is active, restore its
color and `active` flag (guarded by its element existing), restore every
recorded moveable square, and empty `moveablePositions`. -/
def clearPreviousActive (s : GameState) : GameState :=
  match s.activePos with
  | none => s
  | some pos =>
    let b1 :=
      if InBounds pos.1 pos.2 then
        updSquare s.board pos
          (fun sq => { sq with displayedColor := sq.backgroundColor, active := false })
      else s.board
    { board := s.moveablePositions.foldl clearMoveable b1,
      activePos := s.activePos,
      moveablePositions := [] }

/-- The write `target.style.backgroundColor = ACTIVE_COLOR` of
`updateActiveState`. -/
def colorTargetActive (s2 : GameState) (row col : Int) : GameState :=
  { s2 with
    board := updSquare s2.board (row, col) (fun sq => { sq with displayedColor := ACTIVE_COLOR }) }

/-- The write `target.style.backgroundColor = board[row][col].backgroundColor`
of `updateActiveState`. -/
def colorTargetBase (s2 : GameState) (row col : Int) : GameState :=
  { s2 with
    board := updSquare s2.board (row, col)
      (fun sq => { sq with displayedColor := sq.backgroundColor }) }

/-- The then-branch of `updateActiveState` (the clicked square's `active`
flag is set after the toggle and clear): color the target `ACTIVE_COLOR`,
project the moves of its piece if any, and record the new `activePos`. -/
def activateSquare (s2 : GameState) (row col : Int) : GameState :=
  { (match ((colorTargetActive s2 row col).board (row, col)).piece with
      | some piece => displayPotentialMoves (colorTargetActive s2 row col) piece row col
      | none => colorTargetActive s2 row col) with
    activePos := some (row, col) }

/-- The else-branch of `updateActiveState`: restore the target's base color
and clear `activePos`. -/
def deactivateSquare (s2 : GameState) (row col : Int) : GameState :=
  { colorTargetBase s2 row col with activePos := none }

/-- The first line of `updateActiveState`:
`board[row][col].active = !board[row][col].active`. -/
def toggleActive (s : GameState) (row col : Int) : GameState :=
  { s with
    board := updSquare s.board (row, col) (fun sq => { sq with active := !sq.active }) }

/-- Embeds `updateActiveState(target, row, col)`; `target` is the clicked
square's element, so its color writes land on `(row, col)`. The clicked
square's `active` flag is toggled, the previous active state is cleared,
and then the branch on `board[row][col].active` runs. -/
def updateActiveState (s : GameState) (row col : Int) : GameState :=
  if ((clearPreviousActive (toggleActive s row col)).board (row, col)).active then
    activateSquare (clearPreviousActive (toggleActive s row col)) row col
  else deactivateSquare (clearPreviousActive (toggleActive s row col)) row col

/-- The two piece writes of `moveToSelectedPosition`:
`board[row][col].piece = board[activePos.row][activePos.col].piece` followed
by `board[activePos.row][activePos.col].piece = null`. -/
def movedBoard (s : GameState) (apos : Position) (row col : Int) : Board :=
  updSquare
    (updSquare s.board (row, col) (fun sq => { sq with piece := (s.board apos).piece }))
    apos (fun sq => { sq with piece := none })

/-- Embeds `moveToSelectedPosition(target, row, col)`: under an active
position (whose element must exist, i.e. be in bounds), the clicked square
receives the active square's piece, the active square is emptied, highlights
are cleared and the active position is reset. The `img` child shuffling is
visual only. -/
def moveToSelectedPosition (s : GameState) (row col : Int) : GameState :=
  match s.activePos with
  | none => s
  | some apos =>
    if InBounds apos.1 apos.2 then
      { (clearPreviousActive { s with board := movedBoard s apos row col }) with
        activePos := none }
    else s

/-- Embeds `handleSquareClicked(target, row, col)`; the clicked target of an
in-bounds square is always an `HTMLElement`, so the `instanceof` guard is
always true in the model. -/
def handleSquareClicked (s : GameState) (row col : Int) : GameState :=
  if (s.board (row, col)).moveable then moveToSelectedPosition s row col
  else updateActiveState s row col

/-!
Specification predicates for the projected candidate set.

A call to `displayPotentialMoves` only appends to `moveablePositions` (and
sets the corresponding `moveable` flags and highlight colors); the
`ProjStep` relation captures this frame together with a property `Q` of
every appended position.
-/

/-- The clicked-square condition of `checkAndSetPotentialMove`: the square
is empty or holds an enemy piece (relative to the selected piece's color). -/
def emptyOrEnemy (P : Position → Option Piece) (c : Color) (p : Position) : Prop :=
  P p = none ∨ ∃ pc, P p = some pc ∧ pc.color ≠ c

/-- The square reached after `j` steps of the ray walk of
`displayMovesInDirection` with parameters `(rowDir, colDir)`. -/
def rayPos (row col rowDir colDir j : Int) : Position :=
  (row - j * rowDir, col - j * colDir)

/-- Soundness property of one ray: the position lies `j ≥ 1` steps along the
ray, every strictly earlier step of the ray is empty, the position is in
bounds and empty or enemy-occupied. -/
def QRay (P : Position → Option Piece) (c : Color) (row col rowDir colDir : Int)
    (p : Position) : Prop :=
  ∃ j : Int, 1 ≤ j ∧ p = rayPos row col rowDir colDir j ∧
    (∀ t : Int, 1 ≤ t → t < j → P (rayPos row col rowDir colDir t) = none) ∧
    InBounds p.1 p.2 ∧ emptyOrEnemy P c p

/-- The `(rowDir, colDir)` arguments of the four `displayMovesInDirection`
calls of `displayRookMoves`, in source order. -/
def rookDirs : List (Int × Int) := [(-1, 0), (1, 0), (0, -1), (0, 1)]

/-- The `(rowDir, colDir)` arguments of the four `displayMovesInDirection`
calls of `displayBishopMoves`, in source order. -/
def bishopDirs : List (Int × Int) := [(1, 1), (-1, 1), (-1, -1), (1, -1)]

/-- A queen walks the bishop rays and then the rook rays. -/
def queenDirs : List (Int × Int) := bishopDirs ++ rookDirs

/-- Soundness property of a sliding piece: some ray of its direction set
accounts for the position. -/
def QSlide (P : Position → Option Piece) (c : Color) (row col : Int)
    (dirs : List (Int × Int)) (p : Position) : Prop :=
  ∃ d ∈ dirs, QRay P c row col d.1 d.2 p

/-- The eight knight offsets checked by `displayKnightMoves`, in source
order. -/
def knightOffsets : List (Int × Int) :=
  [(-1, -2), (-1, 2), (1, -2), (1, 2), (-2, -1), (-2, 1), (2, -1), (2, 1)]

/-- The eight king offsets checked by `displayKingMoves`, in source order. -/
def kingOffsets : List (Int × Int) :=
  [(-1, -1), (-1, 0), (-1, 1), (0, -1), (0, 1), (1, -1), (1, 0), (1, 1)]

/-- Soundness property of an offset-template piece (knight, king): the
position is origin plus one template offset, in bounds, and empty or
enemy-occupied. -/
def QOffsets (P : Position → Option Piece) (c : Color) (row col : Int)
    (offs : List (Int × Int)) (p : Position) : Prop :=
  (∃ d ∈ offs, p = (row + d.1, col + d.2)) ∧ InBounds p.1 p.2 ∧ emptyOrEnemy P c p

/-- The single forward square of a pawn: `row - 1` for White, `row + 1` for
Black. -/
def pawnForward (c : Color) (row col : Int) : Position :=
  match c with
  | Color.white => (row - 1, col)
  | Color.black => (row + 1, col)

/-- Soundness property of a pawn: the position is the forward square, in
bounds, and empty or enemy-occupied. -/
def QPawn (P : Position → Option Piece) (c : Color) (row col : Int) (p : Position) : Prop :=
  p = pawnForward c row col ∧ InBounds p.1 p.2 ∧ emptyOrEnemy P c p

/-- Per-piece-kind soundness property of the projected candidate set. -/
def QPiece (P : Position → Option Piece) (c : Color) (t : PieceType) (row col : Int)
    (p : Position) : Prop :=
  match t with
  | PieceType.pawn => QPawn P c row col p
  | PieceType.rook => QSlide P c row col rookDirs p
  | PieceType.knight => QOffsets P c row col knightOffsets p
  | PieceType.bishop => QSlide P c row col bishopDirs p
  | PieceType.queen => QSlide P c row col queenDirs p
  | PieceType.king => QOffsets P c row col kingOffsets p

/-- A projection step from `s` to `t`: pieces, active flags and the active
position are untouched; `moveablePositions` grows by a suffix whose members
all satisfy `Q`, and the `moveable` flags track exactly the old flags plus
that suffix. -/
structure ProjStep (s t : GameState) (Q : Position → Prop) : Prop where
  pieces : ∀ q, pieceFn t q = pieceFn s q
  actives : ∀ q, (t.board q).active = (s.board q).active
  apos : t.activePos = s.activePos
  tail : ∃ l, t.moveablePositions = s.moveablePositions ++ l ∧
    (∀ p ∈ l, Q p) ∧
    (∀ q, (t.board q).moveable = true ↔ ((s.board q).moveable = true ∨ q ∈ l))

lemma ProjStep.refl (s : GameState) (Q : Position → Prop) : ProjStep s s Q where
  pieces := fun _ => rfl
  actives := fun _ => rfl
  apos := rfl
  tail := ⟨[], by simp, by simp, by simp⟩

lemma ProjStep.trans {s t u : GameState} {Q : Position → Prop}
    (h1 : ProjStep s t Q) (h2 : ProjStep t u Q) : ProjStep s u Q where
  pieces := fun q => (h2.pieces q).trans (h1.pieces q)
  actives := fun q => (h2.actives q).trans (h1.actives q)
  apos := h2.apos.trans h1.apos
  tail := by
    obtain ⟨l1, he1, hq1, hm1⟩ := h1.tail
    obtain ⟨l2, he2, hq2, hm2⟩ := h2.tail
    refine ⟨l1 ++ l2, ?_, ?_, ?_⟩
    · rw [he2, he1, List.append_assoc]
    · intro p hp
      rcases List.mem_append.mp hp with hc | hc
      · exact hq1 p hc
      · exact hq2 p hc
    · intro q
      rw [hm2 q, hm1 q, List.mem_append]
      tauto

lemma ProjStep.mono {s t : GameState} {Q R : Position → Prop}
    (h : ProjStep s t Q) (hqr : ∀ p, Q p → R p) : ProjStep s t R where
  pieces := h.pieces
  actives := h.actives
  apos := h.apos
  tail := by
    obtain ⟨l, he, hq, hm⟩ := h.tail
    exact ⟨l, he, fun p hp => hqr p (hq p hp), hm⟩

lemma ProjStep.pieces_to {s t : GameState} {Q : Position → Prop}
    {P : Position → Option Piece} (h : ProjStep s t Q)
    (h0 : ∀ q, pieceFn s q = P q) : ∀ q, pieceFn t q = P q :=
  fun q => (h.pieces q).trans (h0 q)

lemma canMoveTo_eq_true {op : Option Piece} {c : Color} :
    canMoveTo op c = true ↔ (op = none ∨ ∃ p, op = some p ∧ p.color ≠ c) := by
  cases op with
  | none => simp [canMoveTo]
  | some p => simp [canMoveTo, ne_comm]

lemma canMoveTo_eq_false {op : Option Piece} {c : Color} :
    canMoveTo op c = false ↔ ∃ p, op = some p ∧ p.color = c := by
  cases op with
  | none => simp [canMoveTo]
  | some p =>
    constructor
    · intro h
      have hd : c = p.color := by simpa [canMoveTo] using h
      exact ⟨p, rfl, hd.symm⟩
    · rintro ⟨q, hq, hcol⟩
      injection hq with hq2
      subst hq2
      simp [canMoveTo, hcol]

lemma check_projStep (s : GameState) (row col : Int) (c : Color) :
    ProjStep s (checkAndSetPotentialMove s row col c).2
      (fun p => p = (row, col) ∧ InBounds row col ∧ emptyOrEnemy (pieceFn s) c p) := by
  unfold checkAndSetPotentialMove
  split
  · rename_i hin
    split
    · rename_i hcm
      constructor
      · intro q
        simp only [pieceFn, updSquare]
        split <;> rfl
      · intro q
        simp only [updSquare]
        split <;> rfl
      · rfl
      · refine ⟨[(row, col)], rfl, ?_, ?_⟩
        · intro p hp
          have hpe : p = (row, col) := by simpa using hp
          subst hpe
          refine ⟨rfl, hin, ?_⟩
          rcases canMoveTo_eq_true.mp hcm with hc | ⟨pc, hpc, hne⟩
          · exact Or.inl hc
          · exact Or.inr ⟨pc, hpc, hne⟩
        · intro q
          simp only [updSquare]
          by_cases hq : q = (row, col)
          · subst hq; simp
          · simp [hq]
    · exact ProjStep.refl s _
  · exact ProjStep.refl s _

lemma check_fst (s : GameState) (row col : Int) (c : Color) :
    (checkAndSetPotentialMove s row col c).1 = true ↔
      (InBounds row col ∧ pieceFn s (row, col) = none) := by
  unfold checkAndSetPotentialMove
  split
  · rename_i hin
    split
    · simp [pieceFn, Option.isNone_iff_eq_none, hin]
    · rename_i hcm
      obtain ⟨p, hp, _⟩ := canMoveTo_eq_false.mp (by simpa using hcm)
      simp [pieceFn, hp]
  · rename_i hin
    simp [hin]

lemma dirLoop_projStep (row col rowDir colDir : Int) (c : Color) (P : Position → Option Piece) :
    ∀ (n : Nat) (i : Int) (s : GameState), (∀ q, pieceFn s q = P q) → 1 ≤ i →
      (∀ t : Int, 1 ≤ t → t < i → P (rayPos row col rowDir colDir t) = none) →
      ProjStep s (dirLoop row col rowDir colDir c n i s) (QRay P c row col rowDir colDir) := by
  intro n
  induction n with
  | zero =>
    intro i s hP hi hprev
    exact ProjStep.refl s _
  | succ n ih =>
    intro i s hP hi hprev
    have hstep := check_projStep s (row - i * rowDir) (col - i * colDir) c
    have hQ : ∀ p, (p = ((row - i * rowDir, col - i * colDir) : Position) ∧
        InBounds (row - i * rowDir) (col - i * colDir) ∧ emptyOrEnemy (pieceFn s) c p) →
        QRay P c row col rowDir colDir p := by
      intro p hp
      obtain ⟨hpe, hin, hee⟩ := hp
      refine ⟨i, hi, ?_, ?_, ?_, ?_⟩
      · rw [hpe]; rfl
      · intro t ht1 ht2
        exact hprev t ht1 ht2
      · rw [hpe]; exact hin
      · unfold emptyOrEnemy at hee ⊢
        rw [← hP p]
        exact hee
    simp only [dirLoop]
    by_cases hc : (checkAndSetPotentialMove s (row - i * rowDir) (col - i * colDir) c).1 = true
    · rw [if_pos hc]
      have hfacts := (check_fst s (row - i * rowDir) (col - i * colDir) c).mp hc
      have hstepi : P (rayPos row col rowDir colDir i) = none := by
        rw [← hP (rayPos row col rowDir colDir i)]
        exact hfacts.2
      have hP2 := hstep.pieces_to hP
      have hprev2 : ∀ t : Int, 1 ≤ t → t < i + 1 →
          P (rayPos row col rowDir colDir t) = none := by
        intro t ht1 ht2
        rcases lt_or_eq_of_le (Int.lt_add_one_iff.mp ht2) with hl | he
        · exact hprev t ht1 hl
        · rw [he]; exact hstepi
      exact (hstep.mono hQ).trans (ih (i + 1) _ hP2 (by omega) hprev2)
    · rw [if_neg hc]
      exact hstep.mono hQ

lemma displayMovesInDirection_projStep (s0 s : GameState)
    (h : ∀ q, pieceFn s q = pieceFn s0 q) (row col rowDir colDir : Int) (c : Color) :
    ProjStep s (displayMovesInDirection s row col rowDir colDir c)
      (QRay (pieceFn s0) c row col rowDir colDir) :=
  dirLoop_projStep row col rowDir colDir c (pieceFn s0) 7 1 s h (by norm_num)
    (fun _ ht1 ht2 => absurd ht2 (not_lt.mpr ht1))

lemma displayRookMoves_projStep (s0 s : GameState) (h : ∀ q, pieceFn s q = pieceFn s0 q)
    (row col : Int) (c : Color) :
    ProjStep s (displayRookMoves s row col c) (QSlide (pieceFn s0) c row col rookDirs) := by
  unfold displayRookMoves
  have h1 := displayMovesInDirection_projStep s0 s h row col (-1) 0 c
  have hp1 := h1.pieces_to h
  have h2 := displayMovesInDirection_projStep s0 _ hp1 row col 1 0 c
  have hp2 := h2.pieces_to hp1
  have h3 := displayMovesInDirection_projStep s0 _ hp2 row col 0 (-1) c
  have hp3 := h3.pieces_to hp2
  have h4 := displayMovesInDirection_projStep s0 _ hp3 row col 0 1 c
  have m1 : ∀ p, QRay (pieceFn s0) c row col (-1) 0 p →
      QSlide (pieceFn s0) c row col rookDirs p :=
    fun p hp => ⟨(-1, 0), by simp [rookDirs], hp⟩
  have m2 : ∀ p, QRay (pieceFn s0) c row col 1 0 p →
      QSlide (pieceFn s0) c row col rookDirs p :=
    fun p hp => ⟨(1, 0), by simp [rookDirs], hp⟩
  have m3 : ∀ p, QRay (pieceFn s0) c row col 0 (-1) p →
      QSlide (pieceFn s0) c row col rookDirs p :=
    fun p hp => ⟨(0, -1), by simp [rookDirs], hp⟩
  have m4 : ∀ p, QRay (pieceFn s0) c row col 0 1 p →
      QSlide (pieceFn s0) c row col rookDirs p :=
    fun p hp => ⟨(0, 1), by simp [rookDirs], hp⟩
  exact ((((h1.mono m1).trans (h2.mono m2)).trans (h3.mono m3)).trans (h4.mono m4))

lemma displayBishopMoves_projStep (s0 s : GameState) (h : ∀ q, pieceFn s q = pieceFn s0 q)
    (row col : Int) (c : Color) :
    ProjStep s (displayBishopMoves s row col c) (QSlide (pieceFn s0) c row col bishopDirs) := by
  unfold displayBishopMoves
  have h1 := displayMovesInDirection_projStep s0 s h row col 1 1 c
  have hp1 := h1.pieces_to h
  have h2 := displayMovesInDirection_projStep s0 _ hp1 row col (-1) 1 c
  have hp2 := h2.pieces_to hp1
  have h3 := displayMovesInDirection_projStep s0 _ hp2 row col (-1) (-1) c
  have hp3 := h3.pieces_to hp2
  have h4 := displayMovesInDirection_projStep s0 _ hp3 row col 1 (-1) c
  have m1 : ∀ p, QRay (pieceFn s0) c row col 1 1 p →
      QSlide (pieceFn s0) c row col bishopDirs p :=
    fun p hp => ⟨(1, 1), by simp [bishopDirs], hp⟩
  have m2 : ∀ p, QRay (pieceFn s0) c row col (-1) 1 p →
      QSlide (pieceFn s0) c row col bishopDirs p :=
    fun p hp => ⟨(-1, 1), by simp [bishopDirs], hp⟩
  have m3 : ∀ p, QRay (pieceFn s0) c row col (-1) (-1) p →
      QSlide (pieceFn s0) c row col bishopDirs p :=
    fun p hp => ⟨(-1, -1), by simp [bishopDirs], hp⟩
  have m4 : ∀ p, QRay (pieceFn s0) c row col 1 (-1) p →
      QSlide (pieceFn s0) c row col bishopDirs p :=
    fun p hp => ⟨(1, -1), by simp [bishopDirs], hp⟩
  exact ((((h1.mono m1).trans (h2.mono m2)).trans (h3.mono m3)).trans (h4.mono m4))

lemma displayQueenMoves_projStep (s0 s : GameState) (h : ∀ q, pieceFn s q = pieceFn s0 q)
    (row col : Int) (c : Color) :
    ProjStep s (displayQueenMoves s row col c) (QSlide (pieceFn s0) c row col queenDirs) := by
  unfold displayQueenMoves
  have hb := displayBishopMoves_projStep s0 s h row col c
  have hr := displayRookMoves_projStep s0 _ (hb.pieces_to h) row col c
  have mb : ∀ p, QSlide (pieceFn s0) c row col bishopDirs p →
      QSlide (pieceFn s0) c row col queenDirs p := by
    rintro p ⟨d, hd, hq⟩
    exact ⟨d, by simp [queenDirs, hd], hq⟩
  have mr : ∀ p, QSlide (pieceFn s0) c row col rookDirs p →
      QSlide (pieceFn s0) c row col queenDirs p := by
    rintro p ⟨d, hd, hq⟩
    exact ⟨d, by simp [queenDirs, hd], hq⟩
  exact (hb.mono mb).trans (hr.mono mr)

lemma chk_projStep (s0 s : GameState) (h : ∀ q, pieceFn s q = pieceFn s0 q)
    (row col trow tcol : Int) (c : Color) (offs : List (Int × Int))
    (hd : ∃ d ∈ offs, trow = row + d.1 ∧ tcol = col + d.2) :
    ProjStep s (chk s trow tcol c) (QOffsets (pieceFn s0) c row col offs) := by
  refine (check_projStep s trow tcol c).mono ?_
  intro p hp
  obtain ⟨hpe, hin, hee⟩ := hp
  obtain ⟨d, hdm, hr, hc⟩ := hd
  refine ⟨⟨d, hdm, ?_⟩, ?_, ?_⟩
  · rw [hpe, hr, hc]
  · rw [hpe]; exact hin
  · unfold emptyOrEnemy at hee ⊢
    rw [← h p]
    exact hee

lemma displayKnightMoves_projStep (s0 s : GameState) (h : ∀ q, pieceFn s q = pieceFn s0 q)
    (row col : Int) (c : Color) :
    ProjStep s (displayKnightMoves s row col c)
      (QOffsets (pieceFn s0) c row col knightOffsets) := by
  unfold displayKnightMoves
  have h1 := chk_projStep s0 s h row col (row - 1) (col - 2) c knightOffsets
    ⟨(-1, -2), by simp [knightOffsets], by ring, by ring⟩
  have hp1 := h1.pieces_to h
  have h2 := chk_projStep s0 _ hp1 row col (row - 1) (col + 2) c knightOffsets
    ⟨(-1, 2), by simp [knightOffsets], by ring, by ring⟩
  have hp2 := h2.pieces_to hp1
  have h3 := chk_projStep s0 _ hp2 row col (row + 1) (col - 2) c knightOffsets
    ⟨(1, -2), by simp [knightOffsets], by ring, by ring⟩
  have hp3 := h3.pieces_to hp2
  have h4 := chk_projStep s0 _ hp3 row col (row + 1) (col + 2) c knightOffsets
    ⟨(1, 2), by simp [knightOffsets], by ring, by ring⟩
  have hp4 := h4.pieces_to hp3
  have h5 := chk_projStep s0 _ hp4 row col (row - 2) (col - 1) c knightOffsets
    ⟨(-2, -1), by simp [knightOffsets], by ring, by ring⟩
  have hp5 := h5.pieces_to hp4
  have h6 := chk_projStep s0 _ hp5 row col (row - 2) (col + 1) c knightOffsets
    ⟨(-2, 1), by simp [knightOffsets], by ring, by ring⟩
  have hp6 := h6.pieces_to hp5
  have h7 := chk_projStep s0 _ hp6 row col (row + 2) (col - 1) c knightOffsets
    ⟨(2, -1), by simp [knightOffsets], by ring, by ring⟩
  have hp7 := h7.pieces_to hp6
  have h8 := chk_projStep s0 _ hp7 row col (row + 2) (col + 1) c knightOffsets
    ⟨(2, 1), by simp [knightOffsets], by ring, by ring⟩
  exact h1.trans (h2.trans (h3.trans (h4.trans (h5.trans (h6.trans (h7.trans h8))))))

lemma displayKingMoves_projStep (s0 s : GameState) (h : ∀ q, pieceFn s q = pieceFn s0 q)
    (row col : Int) (c : Color) :
    ProjStep s (displayKingMoves s row col c)
      (QOffsets (pieceFn s0) c row col kingOffsets) := by
  unfold displayKingMoves
  have h1 := chk_projStep s0 s h row col (row - 1) (col - 1) c kingOffsets
    ⟨(-1, -1), by simp [kingOffsets], by ring, by ring⟩
  have hp1 := h1.pieces_to h
  have h2 := chk_projStep s0 _ hp1 row col (row - 1) col c kingOffsets
    ⟨(-1, 0), by simp [kingOffsets], by ring, by ring⟩
  have hp2 := h2.pieces_to hp1
  have h3 := chk_projStep s0 _ hp2 row col (row - 1) (col + 1) c kingOffsets
    ⟨(-1, 1), by simp [kingOffsets], by ring, by ring⟩
  have hp3 := h3.pieces_to hp2
  have h4 := chk_projStep s0 _ hp3 row col row (col - 1) c kingOffsets
    ⟨(0, -1), by simp [kingOffsets], by ring, by ring⟩
  have hp4 := h4.pieces_to hp3
  have h5 := chk_projStep s0 _ hp4 row col row (col + 1) c kingOffsets
    ⟨(0, 1), by simp [kingOffsets], by ring, by ring⟩
  have hp5 := h5.pieces_to hp4
  have h6 := chk_projStep s0 _ hp5 row col (row + 1) (col - 1) c kingOffsets
    ⟨(1, -1), by simp [kingOffsets], by ring, by ring⟩
  have hp6 := h6.pieces_to hp5
  have h7 := chk_projStep s0 _ hp6 row col (row + 1) col c kingOffsets
    ⟨(1, 0), by simp [kingOffsets], by ring, by ring⟩
  have hp7 := h7.pieces_to hp6
  have h8 := chk_projStep s0 _ hp7 row col (row + 1) (col + 1) c kingOffsets
    ⟨(1, 1), by simp [kingOffsets], by ring, by ring⟩
  exact h1.trans (h2.trans (h3.trans (h4.trans (h5.trans (h6.trans (h7.trans h8))))))

lemma displayPawnMoves_projStep (s0 s : GameState) (h : ∀ q, pieceFn s q = pieceFn s0 q)
    (c : Color) (row col : Int) :
    ProjStep s (displayPawnMoves s c row col) (QPawn (pieceFn s0) c row col) := by
  cases c with
  | white =>
    refine (check_projStep s (row - 1) col Color.white).mono ?_
    intro p hp
    obtain ⟨hpe, hin, hee⟩ := hp
    refine ⟨by rw [hpe]; rfl, by rw [hpe]; exact hin, ?_⟩
    unfold emptyOrEnemy at hee ⊢
    rw [← h p]
    exact hee
  | black =>
    refine (check_projStep s (row + 1) col Color.black).mono ?_
    intro p hp
    obtain ⟨hpe, hin, hee⟩ := hp
    refine ⟨by rw [hpe]; rfl, by rw [hpe]; exact hin, ?_⟩
    unfold emptyOrEnemy at hee ⊢
    rw [← h p]
    exact hee

lemma displayPotentialMoves_projStep (s : GameState) (piece : Piece) (row col : Int) :
    ProjStep s (displayPotentialMoves s piece row col)
      (QPiece (pieceFn s) piece.color piece.type row col) := by
  obtain ⟨t, c⟩ := piece
  cases t with
  | pawn => exact displayPawnMoves_projStep s s (fun _ => rfl) c row col
  | rook => exact displayRookMoves_projStep s s (fun _ => rfl) row col c
  | knight => exact displayKnightMoves_projStep s s (fun _ => rfl) row col c
  | bishop => exact displayBishopMoves_projStep s s (fun _ => rfl) row col c
  | queen => exact displayQueenMoves_projStep s s (fun _ => rfl) row col c
  | king => exact displayKingMoves_projStep s s (fun _ => rfl) row col c

lemma emptyOrEnemy_not_friendly {P : Position → Option Piece} {c : Color} {p : Position}
    (h : emptyOrEnemy P c p) : ¬ ∃ pc, P p = some pc ∧ pc.color = c := by
  rintro ⟨pc, hpc, hcol⟩
  rcases h with he | ⟨pc2, hpc2, hne⟩
  · rw [he] at hpc
    exact Option.noConfusion hpc
  · rw [hpc] at hpc2
    injection hpc2 with h2
    exact hne (h2 ▸ hcol)

lemma QPiece_emptyOrEnemy {P : Position → Option Piece} {c : Color} {t : PieceType}
    {row col : Int} {p : Position} (h : QPiece P c t row col p) : emptyOrEnemy P c p := by
  cases t with
  | pawn => exact h.2.2
  | knight => exact h.2.2
  | king => exact h.2.2
  | rook => obtain ⟨d, _, j, _, _, _, _, hee⟩ := h; exact hee
  | bishop => obtain ⟨d, _, j, _, _, _, _, hee⟩ := h; exact hee
  | queen => obtain ⟨d, _, j, _, _, _, _, hee⟩ := h; exact hee

lemma QPiece_inBounds {P : Position → Option Piece} {c : Color} {t : PieceType}
    {row col : Int} {p : Position} (h : QPiece P c t row col p) : InBounds p.1 p.2 := by
  cases t with
  | pawn => exact h.2.1
  | knight => exact h.2.1
  | king => exact h.2.1
  | rook => obtain ⟨d, _, j, _, _, _, hin, _⟩ := h; exact hin
  | bishop => obtain ⟨d, _, j, _, _, _, hin, _⟩ := h; exact hin
  | queen => obtain ⟨d, _, j, _, _, _, hin, _⟩ := h; exact hin

lemma QSlide_ne_origin {P : Position → Option Piece} {c : Color} {row col : Int}
    {dirs : List (Int × Int)} {p : Position} (hdirs : ∀ d ∈ dirs, d ∈ queenDirs)
    (h : QSlide P c row col dirs p) : p ≠ (row, col) := by
  obtain ⟨d, hd, j, hj, hpe, _, _, _⟩ := h
  have hdq := hdirs d hd
  intro hcontra
  rw [hpe] at hcontra
  unfold rayPos at hcontra
  have h1 : row - j * d.1 = row := congrArg Prod.fst hcontra
  have h2 : col - j * d.2 = col := congrArg Prod.snd hcontra
  simp [queenDirs, bishopDirs, rookDirs] at hdq
  rcases hdq with hde | hde | hde | hde | hde | hde | hde | hde <;>
    subst hde <;> simp at h1 h2 <;> omega

lemma QOffsets_ne_origin {P : Position → Option Piece} {c : Color} {row col : Int}
    {offs : List (Int × Int)} {p : Position}
    (hoffs : ∀ d ∈ offs, d ∈ knightOffsets ∨ d ∈ kingOffsets)
    (h : QOffsets P c row col offs p) : p ≠ (row, col) := by
  obtain ⟨⟨d, hd, hpe⟩, _, _⟩ := h
  intro hcontra
  rw [hpe] at hcontra
  have h1 : row + d.1 = row := congrArg Prod.fst hcontra
  have h2 : col + d.2 = col := congrArg Prod.snd hcontra
  rcases hoffs d hd with hdm | hdm <;> simp [knightOffsets, kingOffsets] at hdm <;>
    rcases hdm with hde | hde | hde | hde | hde | hde | hde | hde <;>
      subst hde <;> simp at h1 h2 <;> omega

lemma QPiece_ne_origin {P : Position → Option Piece} {c : Color} {t : PieceType}
    {row col : Int} {p : Position} (h : QPiece P c t row col p) : p ≠ (row, col) := by
  cases t with
  | pawn =>
    obtain ⟨hpe, _, _⟩ := h
    intro hcontra
    rw [hpe] at hcontra
    cases c with
    | white =>
      have h1 : row - 1 = row := congrArg Prod.fst hcontra
      omega
    | black =>
      have h1 : row + 1 = row := congrArg Prod.fst hcontra
      omega
  | rook =>
    exact QSlide_ne_origin (fun d hd => List.mem_append.mpr (Or.inr hd)) h
  | bishop =>
    exact QSlide_ne_origin (fun d hd => List.mem_append.mpr (Or.inl hd)) h
  | queen =>
    exact QSlide_ne_origin (fun d hd => hd) h
  | knight =>
    exact QOffsets_ne_origin (fun d hd => Or.inl hd) h
  | king =>
    exact QOffsets_ne_origin (fun d hd => Or.inr hd) h

/-- The direction set a sliding piece walks: the `(rowDir, colDir)` argument
lists of its `displayMovesInDirection` calls. -/
def slideDirs (t : PieceType) : List (Int × Int) :=
  match t with
  | PieceType.rook => rookDirs
  | PieceType.bishop => bishopDirs
  | PieceType.queen => queenDirs
  | _ => []

/-- The fixed offset template of a knight or king. -/
def offsetTemplate (t : PieceType) : List (Int × Int) :=
  match t with
  | PieceType.knight => knightOffsets
  | PieceType.king => kingOffsets
  | _ => []

/-- Piece lookup in an association list of concrete placements, for test
fixture boards. -/
def pieceList (l : List (Position × Piece)) (q : Position) : Option Piece :=
  match l with
  | [] => none
  | e :: rest => if e.1 = q then some e.2 else pieceList rest q

/-- A quiescent state (nothing active, nothing highlighted) holding the
given pieces. -/
def mkState (l : List (Position × Piece)) : GameState :=
  { board := fun q =>
      { piece := pieceList l q, active := false, moveable := false,
        backgroundColor := "#f0d9b5", displayedColor := "#f0d9b5" },
    activePos := none,
    moveablePositions := [] }

/-- Fixture: a white rook at the corner with a black pawn three squares to
its right. -/
def csRookW : GameState :=
  mkState [((0, 0), ⟨PieceType.rook, Color.white⟩), ((0, 3), ⟨PieceType.pawn, Color.black⟩)]

/-- Fixture: a white pawn whose forward square holds a white rook. -/
def csPawnBlocked : GameState :=
  mkState [((6, 4), ⟨PieceType.pawn, Color.white⟩), ((5, 4), ⟨PieceType.rook, Color.white⟩)]

/-- Fixture: a lone white knight near the center. -/
def csKnightW : GameState :=
  mkState [((4, 4), ⟨PieceType.knight, Color.white⟩)]

/-- Fixture: a lone white pawn. -/
def csPawnW : GameState :=
  mkState [((6, 4), ⟨PieceType.pawn, Color.white⟩)]

/-- C1: for every board, every sliding piece (rook, bishop or queen) at an
in-bounds origin, and every position `p` of the projected candidate set,
`p` lies some `j ≥ 1` steps along one of the piece's rays, every square
strictly between the origin and `p` along that ray is empty, and `p` itself
is empty or enemy-occupied (so a friendly square is never included, and no
candidate lies strictly beyond any occupied square of its ray). -/
theorem sliding_candidates_ray_sound (s : GameState) (ptype : PieceType) (c : Color)
    (row col : Int) (hmp : s.moveablePositions = []) (hin : InBounds row col)
    (hslide : ptype = PieceType.rook ∨ ptype = PieceType.bishop ∨ ptype = PieceType.queen) :
    ∀ p ∈ (displayPotentialMoves s ⟨ptype, c⟩ row col).moveablePositions,
      ∃ d ∈ slideDirs ptype, ∃ j : Int, 1 ≤ j ∧ p = rayPos row col d.1 d.2 j ∧
        (∀ t : Int, 1 ≤ t → t < j → pieceFn s (rayPos row col d.1 d.2 t) = none) ∧
        (pieceFn s p = none ∨ ∃ pc, pieceFn s p = some pc ∧ pc.color ≠ c) := by
  intro p hp
  have hstep := displayPotentialMoves_projStep s ⟨ptype, c⟩ row col
  obtain ⟨l, he, hq, _⟩ := hstep.tail
  rw [he, hmp] at hp
  simp only [List.nil_append] at hp
  have hQ := hq p hp
  rcases hslide with ht | ht | ht <;> subst ht
  · obtain ⟨d, hd, j, hj, hpe, hbtw, _, hee⟩ := hQ
    exact ⟨d, hd, j, hj, hpe, hbtw, hee⟩
  · obtain ⟨d, hd, j, hj, hpe, hbtw, _, hee⟩ := hQ
    exact ⟨d, hd, j, hj, hpe, hbtw, hee⟩
  · obtain ⟨d, hd, j, hj, hpe, hbtw, _, hee⟩ := hQ
    exact ⟨d, hd, j, hj, hpe, hbtw, hee⟩

/-- Witness for C1 at a concrete board: a white rook at `(0, 0)` with a
black pawn at `(0, 3)`. -/
theorem sliding_candidates_ray_sound_witness :
    csRookW.moveablePositions = [] ∧ InBounds 0 0 ∧
      (PieceType.rook = PieceType.rook ∨ PieceType.rook = PieceType.bishop ∨
        PieceType.rook = PieceType.queen) ∧
      ∀ p ∈ (displayPotentialMoves csRookW ⟨PieceType.rook, Color.white⟩ 0 0).moveablePositions,
        ∃ d ∈ slideDirs PieceType.rook, ∃ j : Int, 1 ≤ j ∧ p = rayPos 0 0 d.1 d.2 j ∧
          (∀ t : Int, 1 ≤ t → t < j → pieceFn csRookW (rayPos 0 0 d.1 d.2 t) = none) ∧
          (pieceFn csRookW p = none ∨
            ∃ pc, pieceFn csRookW p = some pc ∧ pc.color ≠ Color.white) :=
  ⟨rfl, by decide, Or.inl rfl,
    sliding_candidates_ray_sound csRookW PieceType.rook Color.white 0 0 rfl (by decide)
      (Or.inl rfl)⟩

/-- C3: for every board, every piece and every in-bounds origin, the
projected candidate set never contains the origin itself. -/
theorem origin_not_candidate (s : GameState) (piece : Piece) (row col : Int)
    (hmp : s.moveablePositions = []) (hin : InBounds row col) :
    (row, col) ∉ (displayPotentialMoves s piece row col).moveablePositions := by
  intro hmem
  have hstep := displayPotentialMoves_projStep s piece row col
  obtain ⟨l, he, hq, _⟩ := hstep.tail
  rw [he, hmp] at hmem
  simp only [List.nil_append] at hmem
  exact QPiece_ne_origin (hq _ hmem) rfl

/-- Witness for C3 at a concrete board: a white rook at `(0, 0)`. -/
theorem origin_not_candidate_witness :
    csRookW.moveablePositions = [] ∧ InBounds 0 0 ∧
      ((0, 0) : Position) ∉
        (displayPotentialMoves csRookW ⟨PieceType.rook, Color.white⟩ 0 0).moveablePositions :=
  ⟨rfl, by decide,
    origin_not_candidate csRookW ⟨PieceType.rook, Color.white⟩ 0 0 rfl (by decide)⟩

/-- C8: for every board and every knight or king at an in-bounds origin,
every projected candidate is the origin plus one of the piece's fixed
template offsets, lies in bounds, and is not friendly-occupied. -/
theorem knight_king_template_sound (s : GameState) (piece : Piece) (row col : Int)
    (hmp : s.moveablePositions = []) (hin : InBounds row col)
    (hkk : piece.type = PieceType.knight ∨ piece.type = PieceType.king) :
    ∀ p ∈ (displayPotentialMoves s piece row col).moveablePositions,
      (∃ d ∈ offsetTemplate piece.type, p = (row + d.1, col + d.2)) ∧
      InBounds p.1 p.2 ∧
      ¬ ∃ pc, pieceFn s p = some pc ∧ pc.color = piece.color := by
  intro p hp
  have hstep := displayPotentialMoves_projStep s piece row col
  obtain ⟨l, he, hq, _⟩ := hstep.tail
  rw [he, hmp] at hp
  simp only [List.nil_append] at hp
  have hQ := hq p hp
  obtain ⟨t, c⟩ := piece
  rcases hkk with ht | ht <;> simp only at ht <;> subst ht
  · obtain ⟨hoff, hinp, hee⟩ := hQ
    exact ⟨hoff, hinp, emptyOrEnemy_not_friendly hee⟩
  · obtain ⟨hoff, hinp, hee⟩ := hQ
    exact ⟨hoff, hinp, emptyOrEnemy_not_friendly hee⟩

/-- Witness for C8 at a concrete board: a lone white knight at `(4, 4)`. -/
theorem knight_king_template_sound_witness :
    csKnightW.moveablePositions = [] ∧ InBounds 4 4 ∧
      (Piece.type ⟨PieceType.knight, Color.white⟩ = PieceType.knight ∨
        Piece.type ⟨PieceType.knight, Color.white⟩ = PieceType.king) ∧
      ∀ p ∈ (displayPotentialMoves csKnightW ⟨PieceType.knight, Color.white⟩ 4 4).moveablePositions,
        (∃ d ∈ offsetTemplate (Piece.type ⟨PieceType.knight, Color.white⟩),
          p = (4 + d.1, 4 + d.2)) ∧
        InBounds p.1 p.2 ∧
        ¬ ∃ pc, pieceFn csKnightW p = some pc ∧
          pc.color = Piece.color ⟨PieceType.knight, Color.white⟩ :=
  ⟨rfl, by decide, Or.inl rfl,
    knight_king_template_sound csKnightW ⟨PieceType.knight, Color.white⟩ 4 4 rfl (by decide)
      (Or.inl rfl)⟩

/-- C10: for every board, every piece kind and every in-bounds origin, every
position of the projected candidate set has row and column in `[0, 8)`, so
the grid accesses made while projecting and while clearing or applying the
recorded highlights stay within the 8×8 array. -/
theorem candidates_in_bounds (s : GameState) (piece : Piece) (row col : Int)
    (hmp : s.moveablePositions = []) (hin : InBounds row col) :
    ∀ p ∈ (displayPotentialMoves s piece row col).moveablePositions,
      0 ≤ p.1 ∧ p.1 < 8 ∧ 0 ≤ p.2 ∧ p.2 < 8 := by
  intro p hp
  have hstep := displayPotentialMoves_projStep s piece row col
  obtain ⟨l, he, hq, _⟩ := hstep.tail
  rw [he, hmp] at hp
  simp only [List.nil_append] at hp
  have hinp := QPiece_inBounds (hq p hp)
  simpa [InBounds, BOARD_DIMENSION] using hinp

/-- Witness for C10 at a concrete board: a white rook at `(0, 0)`. -/
theorem candidates_in_bounds_witness :
    csRookW.moveablePositions = [] ∧ InBounds 0 0 ∧
      ∀ p ∈ (displayPotentialMoves csRookW ⟨PieceType.rook, Color.white⟩ 0 0).moveablePositions,
        0 ≤ p.1 ∧ p.1 < 8 ∧ 0 ≤ p.2 ∧ p.2 < 8 :=
  ⟨rfl, by decide,
    candidates_in_bounds csRookW ⟨PieceType.rook, Color.white⟩ 0 0 rfl (by decide)⟩

lemma mem_chk_self (s : GameState) (row col : Int) (c : Color)
    (hmp : s.moveablePositions = []) :
    ((row, col) ∈ (chk s row col c).moveablePositions) ↔
      (InBounds row col ∧ emptyOrEnemy (pieceFn s) c (row, col)) := by
  unfold chk checkAndSetPotentialMove
  split
  · rename_i hin
    split
    · rename_i hcm
      simp only [hmp, List.nil_append, List.mem_singleton]
      constructor
      · intro _
        refine ⟨hin, ?_⟩
        rcases canMoveTo_eq_true.mp hcm with hc | ⟨pc, hpc, hne⟩
        · exact Or.inl hc
        · exact Or.inr ⟨pc, hpc, hne⟩
      · intro _
        trivial
    · rename_i hcm
      obtain ⟨pc, hpc, hcol⟩ := canMoveTo_eq_false.mp (by simpa using hcm)
      have hpcf : pieceFn s (row, col) = some pc := hpc
      simp only [hmp, List.not_mem_nil, false_iff]
      rintro ⟨_, hee⟩
      rcases hee with he | ⟨pc2, hpc2, hne⟩
      · rw [hpcf] at he
        exact Option.noConfusion he
      · rw [hpcf] at hpc2
        injection hpc2 with h2
        exact hne (h2 ▸ hcol)
  · rename_i hin
    simp only [hmp, List.not_mem_nil, false_iff]
    rintro ⟨hinc, _⟩
    exact hin hinc

/-- C2 counterexample: on a board with a white pawn at `(6, 4)` and a white
rook on its forward square `(5, 4)`, the forward square is in bounds yet is
not in the projected candidate set, refuting "included regardless of what
occupies it". -/
theorem pawn_forward_friendly_excluded_cex :
    pieceFn csPawnBlocked (6, 4) = some ⟨PieceType.pawn, Color.white⟩ ∧
    InBounds 5 4 ∧
    ((5, 4) : Position) ∉
      (displayPotentialMoves csPawnBlocked ⟨PieceType.pawn, Color.white⟩ 6 4).moveablePositions := by
  refine ⟨by decide, by decide, by decide⟩

/-- C2 amended: for every board and every pawn origin, the forward square
(row − 1 for White, row + 1 for Black) is in the projected candidate set
iff it is within bounds and empty or enemy-occupied; in particular a
friendly-occupied forward square is excluded. -/
theorem pawn_forward_iff_empty_or_enemy (s : GameState) (c : Color) (row col : Int)
    (hmp : s.moveablePositions = []) :
    (pawnForward c row col ∈
        (displayPotentialMoves s ⟨PieceType.pawn, c⟩ row col).moveablePositions) ↔
      (InBounds (pawnForward c row col).1 (pawnForward c row col).2 ∧
        emptyOrEnemy (pieceFn s) c (pawnForward c row col)) := by
  cases c with
  | white => exact mem_chk_self s (row - 1) col Color.white hmp
  | black => exact mem_chk_self s (row + 1) col Color.black hmp

/-- Witness for the amended C2 at a concrete board: a lone white pawn at
`(6, 4)`, whose forward square `(5, 4)` is empty and in bounds. -/
theorem pawn_forward_iff_empty_or_enemy_witness :
    csPawnW.moveablePositions = [] ∧
      ((pawnForward Color.white 6 4 ∈
          (displayPotentialMoves csPawnW ⟨PieceType.pawn, Color.white⟩ 6 4).moveablePositions) ↔
        (InBounds (pawnForward Color.white 6 4).1 (pawnForward Color.white 6 4).2 ∧
          emptyOrEnemy (pieceFn csPawnW) Color.white (pawnForward Color.white 6 4))) :=
  ⟨rfl, pawn_forward_iff_empty_or_enemy csPawnW Color.white 6 4 rfl⟩

lemma updSquare_eval (b : Board) (p q : Position) (f : BoardSquare → BoardSquare) :
    (updSquare b p f) q = if q = p then f (b q) else b q := rfl

lemma clearMoveable_piece (b : Board) (pos q : Position) :
    ((clearMoveable b pos) q).piece = (b q).piece := by
  unfold clearMoveable
  split <;> rw [updSquare_eval] <;> split <;> rfl

lemma clearMoveable_active (b : Board) (pos q : Position) :
    ((clearMoveable b pos) q).active = (b q).active := by
  unfold clearMoveable
  split <;> rw [updSquare_eval] <;> split <;> rfl

lemma clearMoveable_moveable (b : Board) (pos q : Position) :
    ((clearMoveable b pos) q).moveable = if q = pos then false else (b q).moveable := by
  unfold clearMoveable
  split <;> rw [updSquare_eval] <;> split <;> simp [*]

lemma foldl_clearMoveable_piece (l : List Position) (b : Board) (q : Position) :
    ((l.foldl clearMoveable b) q).piece = (b q).piece := by
  induction l generalizing b with
  | nil => rfl
  | cons p rest ih => rw [List.foldl_cons, ih, clearMoveable_piece]

lemma foldl_clearMoveable_active (l : List Position) (b : Board) (q : Position) :
    ((l.foldl clearMoveable b) q).active = (b q).active := by
  induction l generalizing b with
  | nil => rfl
  | cons p rest ih => rw [List.foldl_cons, ih, clearMoveable_active]

lemma foldl_clearMoveable_moveable (l : List Position) (b : Board) (q : Position) :
    ((l.foldl clearMoveable b) q).moveable = if q ∈ l then false else (b q).moveable := by
  induction l generalizing b with
  | nil => simp
  | cons p rest ih =>
    rw [List.foldl_cons, ih, clearMoveable_moveable]
    by_cases hq : q ∈ rest
    · simp [hq]
    · by_cases hqp : q = p <;> simp [hq, hqp]

lemma clear_none (s : GameState) (h : s.activePos = none) : clearPreviousActive s = s := by
  unfold clearPreviousActive
  rw [h]

lemma clear_some_char (s : GameState) (pos : Position) (hap : s.activePos = some pos)
    (hin : InBounds pos.1 pos.2) :
    clearPreviousActive s =
      { board := s.moveablePositions.foldl clearMoveable
          (updSquare s.board pos
            (fun sq => { sq with displayedColor := sq.backgroundColor, active := false })),
        activePos := some pos,
        moveablePositions := [] } := by
  unfold clearPreviousActive
  rw [hap]
  simp [hin]

lemma projectIfPiece_projStep (s3 : GameState) (row col : Int) :
    ProjStep s3
      (match (s3.board (row, col)).piece with
        | some piece => displayPotentialMoves s3 piece row col
        | none => s3)
      (fun p => InBounds p.1 p.2 ∧ p ≠ (row, col)) := by
  cases hp : (s3.board (row, col)).piece with
  | none => exact ProjStep.refl s3 _
  | some piece =>
    exact (displayPotentialMoves_projStep s3 piece row col).mono
      (fun p hq => ⟨QPiece_inBounds hq, QPiece_ne_origin hq⟩)

lemma colorTargetActive_piece (u : GameState) (row col : Int) (q : Position) :
    pieceFn (colorTargetActive u row col) q = pieceFn u q := by
  simp only [colorTargetActive, pieceFn, updSquare_eval]
  split <;> rfl

lemma colorTargetActive_active (u : GameState) (row col : Int) (q : Position) :
    ((colorTargetActive u row col).board q).active = (u.board q).active := by
  simp only [colorTargetActive, updSquare_eval]
  split <;> rfl

lemma colorTargetActive_moveable (u : GameState) (row col : Int) (q : Position) :
    ((colorTargetActive u row col).board q).moveable = (u.board q).moveable := by
  simp only [colorTargetActive, updSquare_eval]
  split <;> rfl

lemma colorTargetActive_list (u : GameState) (row col : Int) :
    (colorTargetActive u row col).moveablePositions = u.moveablePositions := rfl

lemma activateSquare_step (u : GameState) (row col : Int) :
    (activateSquare u row col).activePos = some (row, col) ∧
    (∀ q, pieceFn (activateSquare u row col) q = pieceFn u q) ∧
    (∀ q, ((activateSquare u row col).board q).active = (u.board q).active) ∧
    (∃ l, (activateSquare u row col).moveablePositions = u.moveablePositions ++ l ∧
      (∀ p ∈ l, InBounds p.1 p.2 ∧ p ≠ (row, col)) ∧
      (∀ q, ((activateSquare u row col).board q).moveable = true ↔
        ((u.board q).moveable = true ∨ q ∈ l))) := by
  unfold activateSquare
  have hstep := projectIfPiece_projStep (colorTargetActive u row col) row col
  generalize hmatch : (match ((colorTargetActive u row col).board (row, col)).piece with
    | some piece => displayPotentialMoves (colorTargetActive u row col) piece row col
    | none => colorTargetActive u row col) = s4
  rw [hmatch] at hstep
  obtain ⟨l, hle, hlq, hlm⟩ := hstep.tail
  refine ⟨rfl, ?_, ?_, l, ?_, hlq, ?_⟩
  · intro q
    exact (hstep.pieces q).trans (colorTargetActive_piece u row col q)
  · intro q
    exact (hstep.actives q).trans (colorTargetActive_active u row col q)
  · rw [hle, colorTargetActive_list]
  · intro q
    rw [hlm q, colorTargetActive_moveable u row col q]

lemma activateSquare_empty (u : GameState) (row col : Int)
    (hempty : pieceFn u (row, col) = none) :
    (activateSquare u row col).moveablePositions = u.moveablePositions := by
  unfold activateSquare
  have h3 : ((colorTargetActive u row col).board (row, col)).piece = none := by
    have := colorTargetActive_piece u row col (row, col)
    rw [pieceFn, pieceFn] at this
    rw [this]
    exact hempty
  rw [h3]
  rfl

lemma deactivateSquare_step (u : GameState) (row col : Int) :
    (deactivateSquare u row col).activePos = none ∧
    (deactivateSquare u row col).moveablePositions = u.moveablePositions ∧
    (∀ q, pieceFn (deactivateSquare u row col) q = pieceFn u q) ∧
    (∀ q, ((deactivateSquare u row col).board q).active = (u.board q).active) ∧
    (∀ q, ((deactivateSquare u row col).board q).moveable = (u.board q).moveable) := by
  refine ⟨rfl, rfl, ?_, ?_, ?_⟩ <;> intro q <;>
    simp only [deactivateSquare, colorTargetBase, pieceFn, updSquare_eval] <;> split <;> rfl

lemma toggleActive_piece (s : GameState) (row col : Int) (q : Position) :
    pieceFn (toggleActive s row col) q = pieceFn s q := by
  simp only [toggleActive, pieceFn, updSquare_eval]
  split <;> rfl

lemma toggleActive_moveable (s : GameState) (row col : Int) (q : Position) :
    ((toggleActive s row col).board q).moveable = (s.board q).moveable := by
  simp only [toggleActive, updSquare_eval]
  split <;> rfl

lemma toggleActive_active (s : GameState) (row col : Int) (q : Position) :
    ((toggleActive s row col).board q).active =
      if q = (row, col) then !(s.board q).active else (s.board q).active := by
  simp only [toggleActive, updSquare_eval]
  split <;> rfl

lemma toggleActive_apos (s : GameState) (row col : Int) :
    (toggleActive s row col).activePos = s.activePos := rfl

lemma toggleActive_list (s : GameState) (row col : Int) :
    (toggleActive s row col).moveablePositions = s.moveablePositions := rfl

lemma clear_some_active (s : GameState) (pos : Position) (hap : s.activePos = some pos)
    (hin : InBounds pos.1 pos.2) (q : Position) :
    ((clearPreviousActive s).board q).active = if q = pos then false else (s.board q).active := by
  rw [clear_some_char s pos hap hin]
  simp only [foldl_clearMoveable_active, updSquare_eval]
  split <;> rfl

lemma clear_some_moveable (s : GameState) (pos : Position) (hap : s.activePos = some pos)
    (hin : InBounds pos.1 pos.2) (q : Position) :
    ((clearPreviousActive s).board q).moveable =
      if q ∈ s.moveablePositions then false else (s.board q).moveable := by
  rw [clear_some_char s pos hap hin]
  simp only [foldl_clearMoveable_moveable, updSquare_eval]
  by_cases hq : q ∈ s.moveablePositions <;> by_cases hqp : q = pos <;> simp [hq, hqp]

lemma clear_some_pieceFn (s : GameState) (pos : Position) (hap : s.activePos = some pos)
    (hin : InBounds pos.1 pos.2) (q : Position) :
    pieceFn (clearPreviousActive s) q = pieceFn s q := by
  rw [clear_some_char s pos hap hin]
  simp only [pieceFn, foldl_clearMoveable_piece, updSquare_eval]
  split <;> rfl

lemma clear_some_list (s : GameState) (pos : Position) (hap : s.activePos = some pos)
    (hin : InBounds pos.1 pos.2) :
    (clearPreviousActive s).moveablePositions = [] := by
  rw [clear_some_char s pos hap hin]

lemma clear_some_apos (s : GameState) (pos : Position) (hap : s.activePos = some pos)
    (hin : InBounds pos.1 pos.2) :
    (clearPreviousActive s).activePos = some pos := by
  rw [clear_some_char s pos hap hin]

lemma updateActiveState_select_of_idle (s : GameState) (row col : Int)
    (hap : s.activePos = none)
    (hmp : s.moveablePositions = [])
    (hflags : ∀ q, (s.board q).moveable = false)
    (hact : ∀ q, (s.board q).active = false) :
    (updateActiveState s row col).activePos = some (row, col) ∧
    (∀ q, pieceFn (updateActiveState s row col) q = pieceFn s q) ∧
    (∀ q, ((updateActiveState s row col).board q).active = true ↔ q = ((row, col) : Position)) ∧
    (∀ q, ((updateActiveState s row col).board q).moveable = true ↔
      q ∈ (updateActiveState s row col).moveablePositions) ∧
    (∀ p ∈ (updateActiveState s row col).moveablePositions,
      InBounds p.1 p.2 ∧ p ≠ ((row, col) : Position)) ∧
    (pieceFn s (row, col) = none → (updateActiveState s row col).moveablePositions = []) := by
  have hclear : clearPreviousActive (toggleActive s row col) = toggleActive s row col :=
    clear_none _ ((toggleActive_apos s row col).trans hap)
  have hcond : ((clearPreviousActive (toggleActive s row col)).board (row, col)).active = true := by
    rw [hclear, toggleActive_active]
    simp [hact (row, col)]
  have hupd : updateActiveState s row col = activateSquare (toggleActive s row col) row col := by
    unfold updateActiveState
    rw [if_pos hcond, hclear]
  obtain ⟨ha1, ha2, ha3, l, hle, hlq, hlm⟩ := activateSquare_step (toggleActive s row col) row col
  rw [hupd]
  refine ⟨ha1, ?_, ?_, ?_, ?_, ?_⟩
  · intro q
    exact (ha2 q).trans (toggleActive_piece s row col q)
  · intro q
    rw [ha3 q, toggleActive_active]
    by_cases hq : q = ((row, col) : Position)
    · simp [hq, hact]
    · simp [hq, hact q]
  · intro q
    rw [hlm q, toggleActive_moveable, hle, toggleActive_list, hmp]
    simp [hflags q]
  · intro p hp
    rw [hle, toggleActive_list, hmp] at hp
    simp only [List.nil_append] at hp
    exact hlq p hp
  · intro hempty
    rw [activateSquare_empty (toggleActive s row col) row col
      ((toggleActive_piece s row col (row, col)).trans hempty), toggleActive_list, hmp]

lemma updateActiveState_deselect (s : GameState) (row col : Int)
    (hap : s.activePos = some (row, col))
    (hin : InBounds row col)
    (hact : ∀ q, ((s.board q).active = true ↔ q = ((row, col) : Position)))
    (hflags : ∀ q, ((s.board q).moveable = true ↔ q ∈ s.moveablePositions)) :
    (updateActiveState s row col).activePos = none ∧
    (updateActiveState s row col).moveablePositions = [] ∧
    (∀ q, pieceFn (updateActiveState s row col) q = pieceFn s q) ∧
    (∀ q, ((updateActiveState s row col).board q).active = false) ∧
    (∀ q, ((updateActiveState s row col).board q).moveable = false) := by
  have hapt : (toggleActive s row col).activePos = some ((row, col) : Position) :=
    (toggleActive_apos s row col).trans hap
  have hC_active : ∀ q, ((clearPreviousActive (toggleActive s row col)).board q).active = false := by
    intro q
    rw [clear_some_active (toggleActive s row col) (row, col) hapt hin q, toggleActive_active]
    by_cases hq : q = ((row, col) : Position)
    · simp [hq]
    · simp [hq]
      have := hact q
      simp [hq] at this
      exact this
  have hC_moveable : ∀ q,
      ((clearPreviousActive (toggleActive s row col)).board q).moveable = false := by
    intro q
    rw [clear_some_moveable (toggleActive s row col) (row, col) hapt hin q, toggleActive_list,
      toggleActive_moveable]
    by_cases hq : q ∈ s.moveablePositions
    · simp [hq]
    · simp [hq]
      have := hflags q
      simp [hq] at this
      exact this
  have hC_piece : ∀ q,
      pieceFn (clearPreviousActive (toggleActive s row col)) q = pieceFn s q := by
    intro q
    rw [clear_some_pieceFn (toggleActive s row col) (row, col) hapt hin q]
    exact toggleActive_piece s row col q
  have hC_list : (clearPreviousActive (toggleActive s row col)).moveablePositions = [] :=
    clear_some_list (toggleActive s row col) (row, col) hapt hin
  have hcond : ((clearPreviousActive (toggleActive s row col)).board (row, col)).active = false :=
    hC_active (row, col)
  have hupd : updateActiveState s row col =
      deactivateSquare (clearPreviousActive (toggleActive s row col)) row col := by
    unfold updateActiveState
    rw [if_neg (by rw [hcond]; exact Bool.false_ne_true)]
  obtain ⟨hd1, hd2, hd3, hd4, hd5⟩ :=
    deactivateSquare_step (clearPreviousActive (toggleActive s row col)) row col
  rw [hupd]
  refine ⟨hd1, hd2.trans hC_list, ?_, ?_, ?_⟩
  · intro q
    exact (hd3 q).trans (hC_piece q)
  · intro q
    exact (hd4 q).trans (hC_active q)
  · intro q
    exact (hd5 q).trans (hC_moveable q)

lemma updateActiveState_reselect (s : GameState) (prow pcol row col : Int)
    (hap : s.activePos = some (prow, pcol))
    (hinp : InBounds prow pcol)
    (hne : ((row, col) : Position) ≠ ((prow, pcol) : Position))
    (hact : ∀ q, ((s.board q).active = true ↔ q = ((prow, pcol) : Position)))
    (hflags : ∀ q, ((s.board q).moveable = true ↔ q ∈ s.moveablePositions)) :
    (updateActiveState s row col).activePos = some (row, col) ∧
    (∀ q, pieceFn (updateActiveState s row col) q = pieceFn s q) ∧
    (∀ q, ((updateActiveState s row col).board q).active = true ↔ q = ((row, col) : Position)) ∧
    (∀ q, ((updateActiveState s row col).board q).moveable = true ↔
      q ∈ (updateActiveState s row col).moveablePositions) ∧
    (∀ p ∈ (updateActiveState s row col).moveablePositions,
      InBounds p.1 p.2 ∧ p ≠ ((row, col) : Position)) ∧
    (pieceFn s (row, col) = none → (updateActiveState s row col).moveablePositions = []) := by
  have hapt : (toggleActive s row col).activePos = some ((prow, pcol) : Position) :=
    (toggleActive_apos s row col).trans hap
  have hsrc_act : (s.board (row, col)).active = false := by
    have := hact (row, col)
    simp [hne] at this
    exact this
  have hC_active : ∀ q, ((clearPreviousActive (toggleActive s row col)).board q).active =
      if q = ((row, col) : Position) then true else false := by
    intro q
    rw [clear_some_active (toggleActive s row col) (prow, pcol) hapt hinp q, toggleActive_active]
    by_cases hqp : q = ((prow, pcol) : Position)
    · subst hqp
      simp [Ne.symm hne]
    · by_cases hq : q = ((row, col) : Position)
      · simp [hqp, hq, hsrc_act]
        have hne2 : ¬(row = prow ∧ col = pcol) := by
          intro hcontra
          exact hne (by simp [Prod.ext_iff, hcontra.1, hcontra.2])
        tauto
      · simp [hqp, hq]
        have := hact q
        simp [hqp] at this
        exact this
  have hC_moveable : ∀ q,
      ((clearPreviousActive (toggleActive s row col)).board q).moveable = false := by
    intro q
    rw [clear_some_moveable (toggleActive s row col) (prow, pcol) hapt hinp q, toggleActive_list,
      toggleActive_moveable]
    by_cases hq : q ∈ s.moveablePositions
    · simp [hq]
    · simp [hq]
      have := hflags q
      simp [hq] at this
      exact this
  have hC_piece : ∀ q,
      pieceFn (clearPreviousActive (toggleActive s row col)) q = pieceFn s q := by
    intro q
    rw [clear_some_pieceFn (toggleActive s row col) (prow, pcol) hapt hinp q]
    exact toggleActive_piece s row col q
  have hC_list : (clearPreviousActive (toggleActive s row col)).moveablePositions = [] :=
    clear_some_list (toggleActive s row col) (prow, pcol) hapt hinp
  have hcond : ((clearPreviousActive (toggleActive s row col)).board (row, col)).active = true := by
    rw [hC_active (row, col)]
    simp
  have hupd : updateActiveState s row col =
      activateSquare (clearPreviousActive (toggleActive s row col)) row col := by
    unfold updateActiveState
    rw [if_pos hcond]
  obtain ⟨ha1, ha2, ha3, l, hle, hlq, hlm⟩ :=
    activateSquare_step (clearPreviousActive (toggleActive s row col)) row col
  rw [hupd]
  refine ⟨ha1, ?_, ?_, ?_, ?_, ?_⟩
  · intro q
    exact (ha2 q).trans (hC_piece q)
  · intro q
    rw [ha3 q, hC_active q]
    by_cases hq : q = ((row, col) : Position) <;> simp [hq]
  · intro q
    rw [hlm q, hC_moveable q, hle, hC_list]
    simp
  · intro p hp
    rw [hle, hC_list] at hp
    simp only [List.nil_append] at hp
    exact hlq p hp
  · intro hempty
    rw [activateSquare_empty (clearPreviousActive (toggleActive s row col)) row col
      ((hC_piece (row, col)).trans hempty), hC_list]

lemma movedBoard_piece (s : GameState) (apos : Position) (row col : Int) (q : Position) :
    ((movedBoard s apos row col) q).piece =
      if q = apos then none
      else if q = ((row, col) : Position) then (s.board apos).piece
      else (s.board q).piece := by
  unfold movedBoard
  rw [updSquare_eval, updSquare_eval]
  by_cases h2 : q = ((row, col) : Position)
  · subst h2
    by_cases h1 : ((row, col) : Position) = apos <;> simp [h1]
  · by_cases h1 : q = apos <;> simp [h1, h2]

lemma movedBoard_active (s : GameState) (apos : Position) (row col : Int) (q : Position) :
    ((movedBoard s apos row col) q).active = (s.board q).active := by
  unfold movedBoard
  rw [updSquare_eval, updSquare_eval]
  by_cases h2 : q = ((row, col) : Position)
  · subst h2
    by_cases h1 : ((row, col) : Position) = apos <;> simp [h1]
  · by_cases h1 : q = apos <;> simp [h1, h2]

lemma movedBoard_moveable (s : GameState) (apos : Position) (row col : Int) (q : Position) :
    ((movedBoard s apos row col) q).moveable = (s.board q).moveable := by
  unfold movedBoard
  rw [updSquare_eval, updSquare_eval]
  by_cases h2 : q = ((row, col) : Position)
  · subst h2
    by_cases h1 : ((row, col) : Position) = apos <;> simp [h1]
  · by_cases h1 : q = apos <;> simp [h1, h2]

lemma moveToSelectedPosition_spec (s : GameState) (prow pcol row col : Int)
    (hap : s.activePos = some (prow, pcol))
    (hin : InBounds prow pcol) :
    (moveToSelectedPosition s row col).activePos = none ∧
    (moveToSelectedPosition s row col).moveablePositions = [] ∧
    (∀ q, ((moveToSelectedPosition s row col).board q).moveable =
      if q ∈ s.moveablePositions then false else (s.board q).moveable) ∧
    (∀ q, ((moveToSelectedPosition s row col).board q).active =
      if q = ((prow, pcol) : Position) then false else (s.board q).active) ∧
    (∀ q, pieceFn (moveToSelectedPosition s row col) q =
      if q = ((prow, pcol) : Position) then none
      else if q = ((row, col) : Position) then pieceFn s (prow, pcol)
      else pieceFn s q) := by
  have hmv : moveToSelectedPosition s row col =
      { (clearPreviousActive { s with board := movedBoard s (prow, pcol) row col }) with
        activePos := none } := by
    unfold moveToSelectedPosition
    rw [hap]
    dsimp only
    rw [if_pos hin]
  have hapM : ({ s with board := movedBoard s (prow, pcol) row col } : GameState).activePos =
      some ((prow, pcol) : Position) := hap
  rw [hmv]
  refine ⟨rfl, ?_, ?_, ?_, ?_⟩
  · exact clear_some_list _ (prow, pcol) hapM hin
  · intro q
    simp only [clear_some_moveable _ (prow, pcol) hapM hin, movedBoard_moveable]
  · intro q
    simp only [clear_some_active _ (prow, pcol) hapM hin, movedBoard_active]
  · intro q
    have hc := clear_some_pieceFn _ (prow, pcol) hapM hin q
    simp only [pieceFn] at hc
    simp only [pieceFn, hc, movedBoard_piece]

/-- C4: for every state whose active square `p` is in bounds and every
candidate (moveable) square `q ≠ p`, clicking `q` relocates the piece:
afterwards `p` is empty and `q` holds the piece formerly at `p`, whatever
occupied `q` before. -/
theorem move_relocates_piece (s : GameState) (prow pcol row col : Int)
    (hap : s.activePos = some (prow, pcol))
    (hin : InBounds prow pcol)
    (hmv : (s.board (row, col)).moveable = true)
    (hne : ((row, col) : Position) ≠ ((prow, pcol) : Position)) :
    pieceFn (handleSquareClicked s row col) (prow, pcol) = none ∧
    pieceFn (handleSquareClicked s row col) (row, col) = pieceFn s (prow, pcol) := by
  have hclick : handleSquareClicked s row col = moveToSelectedPosition s row col := by
    unfold handleSquareClicked
    rw [if_pos hmv]
  obtain ⟨_, _, _, _, hpieces⟩ := moveToSelectedPosition_spec s prow pcol row col hap hin
  rw [hclick]
  constructor
  · rw [hpieces (prow, pcol)]
    simp
  · rw [hpieces (row, col)]
    simp [hne]

/-- The selection-state representation invariant: the `moveable` flags
mirror `moveablePositions`, every recorded candidate is in bounds, and the
`active` flags mirror `activePos` (all clear and no candidates when idle;
exactly the active square's flag set when active). -/
def SelInv (s : GameState) : Prop :=
  (∀ q, ((s.board q).moveable = true ↔ q ∈ s.moveablePositions)) ∧
  (∀ q ∈ s.moveablePositions, InBounds q.1 q.2) ∧
  ((s.activePos = none ∧ s.moveablePositions = [] ∧ ∀ q, (s.board q).active = false) ∨
    (∃ p : Position, s.activePos = some p ∧ InBounds p.1 p.2 ∧
      ∀ q, ((s.board q).active = true ↔ q = p)))

/-- C7: every click transition (move, select, deselect or reselect)
preserves the selection invariant; in particular, afterwards at most one
square has its `active` flag set, and the candidate list is non-empty only
when an active position is set. -/
theorem click_preserves_selection_invariant (s : GameState) (row col : Int)
    (hInv : SelInv s) (hin : InBounds row col) :
    SelInv (handleSquareClicked s row col) ∧
    (∀ q1 q2, ((handleSquareClicked s row col).board q1).active = true →
      ((handleSquareClicked s row col).board q2).active = true → q1 = q2) ∧
    ((handleSquareClicked s row col).moveablePositions ≠ [] →
      (handleSquareClicked s row col).activePos ≠ none) := by
  obtain ⟨hmvmem, hbnd, hsel⟩ := hInv
  have main : SelInv (handleSquareClicked s row col) := by
    unfold handleSquareClicked
    by_cases hflag : (s.board (row, col)).moveable = true
    · rw [if_pos hflag]
      rcases hsel with ⟨hap, hmp, hact⟩ | ⟨⟨prow, pcol⟩, hap, hinp, hact⟩
      · exfalso
        have := (hmvmem (row, col)).mp hflag
        rw [hmp] at this
        exact List.not_mem_nil _ this
      · obtain ⟨hm1, hm2, hm3, hm4, _⟩ :=
          moveToSelectedPosition_spec s prow pcol row col hap hinp
        refine ⟨?_, ?_, Or.inl ⟨hm1, hm2, ?_⟩⟩
        · intro q
          rw [hm3 q, hm2]
          by_cases hq : q ∈ s.moveablePositions
          · simp [hq]
          · simp [hq]
            have := hmvmem q
            simp [hq] at this
            exact this
        · intro q hq
          rw [hm2] at hq
          exact absurd hq (List.not_mem_nil q)
        · intro q
          rw [hm4 q]
          by_cases hq : q = ((prow, pcol) : Position)
          · simp [hq]
          · simp [hq]
            have := hact q
            simp [hq] at this
            exact this
    · rw [if_neg hflag]
      rcases hsel with ⟨hap, hmp, hact⟩ | ⟨⟨prow, pcol⟩, hap, hinp, hact⟩
      · have hflagsall : ∀ q, (s.board q).moveable = false := by
          intro q
          have := hmvmem q
          rw [hmp] at this
          simpa using this
        obtain ⟨hu1, _, hu3, hu4, hu5, _⟩ :=
          updateActiveState_select_of_idle s row col hap hmp hflagsall hact
        exact ⟨hu4, fun p hp => (hu5 p hp).1, Or.inr ⟨(row, col), hu1, hin, hu3⟩⟩
      · by_cases heq : ((row, col) : Position) = ((prow, pcol) : Position)
        · have hap2 : s.activePos = some ((row, col) : Position) := by rw [heq]; exact hap
          have hact2 : ∀ q, ((s.board q).active = true ↔ q = ((row, col) : Position)) := by
            intro q
            rw [heq]
            exact hact q
          obtain ⟨hd1, hd2, _, hd4, hd5⟩ :=
            updateActiveState_deselect s row col hap2 hin hact2 hmvmem
          refine ⟨?_, ?_, Or.inl ⟨hd1, hd2, hd4⟩⟩
          · intro q
            rw [hd5 q, hd2]
            simp
          · intro q hq
            rw [hd2] at hq
            exact absurd hq (List.not_mem_nil q)
        · obtain ⟨hu1, _, hu3, hu4, hu5, _⟩ :=
            updateActiveState_reselect s prow pcol row col hap hinp heq hact hmvmem
          exact ⟨hu4, fun p hp => (hu5 p hp).1, Or.inr ⟨(row, col), hu1, hin, hu3⟩⟩
  refine ⟨main, ?_, ?_⟩
  · intro q1 q2 h1 h2
    rcases main.2.2 with ⟨_, _, hact⟩ | ⟨p, _, _, hact⟩
    · rw [hact q1] at h1
      exact absurd h1 Bool.false_ne_true
    · rw [(hact q1).mp h1, (hact q2).mp h2]
  · intro hlne
    rcases main.2.2 with ⟨_, hmp, _⟩ | ⟨p, hap, _, _⟩
    · exact absurd hmp hlne
    · rw [hap]
      exact Option.noConfusion

/-- C6: from an idle state, clicking a square holding a piece and then
clicking it again returns the selection state to idle: no active position,
no active flag, no candidate list and no moveable flags. -/
theorem select_deselect_roundtrip (s : GameState) (row col : Int) (piece : Piece)
    (hInv : SelInv s) (hap : s.activePos = none) (hpc : pieceFn s (row, col) = some piece)
    (hin : InBounds row col) :
    (handleSquareClicked (handleSquareClicked s row col) row col).activePos = none ∧
    (handleSquareClicked (handleSquareClicked s row col) row col).moveablePositions = [] ∧
    (∀ q, ((handleSquareClicked (handleSquareClicked s row col) row col).board q).active
      = false) ∧
    (∀ q, ((handleSquareClicked (handleSquareClicked s row col) row col).board q).moveable
      = false) := by
  obtain ⟨hmvmem, hbnd, hsel⟩ := hInv
  rcases hsel with ⟨_, hmp, hact⟩ | ⟨p, hap2, _, _⟩
  swap
  · rw [hap] at hap2
    exact Option.noConfusion hap2
  have hflagsall : ∀ q, (s.board q).moveable = false := by
    intro q
    have := hmvmem q
    rw [hmp] at this
    simpa using this
  have hflag1 : ¬((s.board (row, col)).moveable = true) := by
    rw [hflagsall (row, col)]
    exact Bool.false_ne_true
  have hclick1 : handleSquareClicked s row col = updateActiveState s row col := by
    unfold handleSquareClicked
    rw [if_neg hflag1]
  obtain ⟨hu1, _, hu3, hu4, hu5, _⟩ :=
    updateActiveState_select_of_idle s row col hap hmp hflagsall hact
  have hflag2 : ¬(((updateActiveState s row col).board (row, col)).moveable = true) := by
    intro hcontra
    have hmem := (hu4 (row, col)).mp hcontra
    exact (hu5 _ hmem).2 rfl
  have hclick2 : handleSquareClicked (updateActiveState s row col) row col =
      updateActiveState (updateActiveState s row col) row col := by
    unfold handleSquareClicked
    rw [if_neg hflag2]
  obtain ⟨hd1, hd2, _, hd4, hd5⟩ :=
    updateActiveState_deselect (updateActiveState s row col) row col hu1 hin hu3 hu4
  rw [hclick1, hclick2]
  exact ⟨hd1, hd2, hd4, hd5⟩

/-- C5 amended: in a state with active square `p` (in bounds, invariant
holding), clicking an empty non-candidate square `s ≠ p` does not return to
idle: it makes `s` the new active square (its `active` flag set, `activePos`
pointing at it) with an empty candidate set. -/
theorem empty_noncandidate_click_selects (s : GameState) (prow pcol row col : Int)
    (hInv : SelInv s) (hap : s.activePos = some (prow, pcol)) (hin : InBounds row col)
    (hnc : (s.board (row, col)).moveable = false)
    (hne : ((row, col) : Position) ≠ ((prow, pcol) : Position))
    (hempty : pieceFn s (row, col) = none) :
    (handleSquareClicked s row col).activePos = some (row, col) ∧
    ((handleSquareClicked s row col).board (row, col)).active = true ∧
    (handleSquareClicked s row col).moveablePositions = [] ∧
    (∀ q, ((handleSquareClicked s row col).board q).moveable = false) := by
  obtain ⟨hmvmem, hbnd, hsel⟩ := hInv
  rcases hsel with ⟨hap2, _, _⟩ | ⟨p, hap2, hinp, hact⟩
  · rw [hap] at hap2
    exact Option.noConfusion hap2
  have hpe : p = ((prow, pcol) : Position) := by
    have := hap2.symm.trans hap
    injection this
  subst hpe
  have hflag1 : ¬((s.board (row, col)).moveable = true) := by
    rw [hnc]
    exact Bool.false_ne_true
  have hclick : handleSquareClicked s row col = updateActiveState s row col := by
    unfold handleSquareClicked
    rw [if_neg hflag1]
  obtain ⟨hu1, _, hu3, hu4, _, hu6⟩ :=
    updateActiveState_reselect s prow pcol row col hap hinp hne hact hmvmem
  rw [hclick]
  have hlist : (updateActiveState s row col).moveablePositions = [] := hu6 hempty
  refine ⟨hu1, (hu3 (row, col)).mpr rfl, hlist, ?_⟩
  intro q
  have := hu4 q
  rw [hlist] at this
  simpa using this

lemma selInv_mkState (l : List (Position × Piece)) : SelInv (mkState l) := by
  refine ⟨?_, ?_, Or.inl ⟨rfl, rfl, ?_⟩⟩
  · intro q
    simp [mkState]
  · intro q hq
    simp [mkState] at hq
  · intro q
    rfl

/-- Fixture: a reachable active state: the white pawn at `(0, 0)` is
selected; its forward square is out of bounds, so no candidate is
highlighted. -/
def csActivePawn : GameState :=
  { board := fun q =>
      { piece := pieceList [((0, 0), ⟨PieceType.pawn, Color.white⟩)] q,
        active := decide (q = ((0, 0) : Position)),
        moveable := false,
        backgroundColor := "#f0d9b5",
        displayedColor := if q = ((0, 0) : Position) then ACTIVE_COLOR else "#f0d9b5" },
    activePos := some (0, 0),
    moveablePositions := [] }

lemma selInv_csActivePawn : SelInv csActivePawn := by
  refine ⟨?_, ?_, Or.inr ⟨(0, 0), rfl, by decide, ?_⟩⟩
  · intro q
    simp [csActivePawn]
  · intro q hq
    simp [csActivePawn] at hq
  · intro q
    simp [csActivePawn]

/-- Fixture: a white rook at `(0, 0)` is active and `(0, 1)` is highlighted
as a candidate square. -/
def csMove : GameState :=
  { board := fun q =>
      { piece := pieceList [((0, 0), ⟨PieceType.rook, Color.white⟩)] q,
        active := decide (q = ((0, 0) : Position)),
        moveable := decide (q = ((0, 1) : Position)),
        backgroundColor := "#f0d9b5",
        displayedColor := "#f0d9b5" },
    activePos := some (0, 0),
    moveablePositions := [(0, 1)] }

/-- Witness for C4 at a concrete state: moving the active white rook from
`(0, 0)` to its candidate square `(0, 1)`. -/
theorem move_relocates_piece_witness :
    csMove.activePos = some (0, 0) ∧ InBounds 0 0 ∧
      (csMove.board (0, 1)).moveable = true ∧
      ((0, 1) : Position) ≠ ((0, 0) : Position) ∧
      (pieceFn (handleSquareClicked csMove 0 1) (0, 0) = none ∧
        pieceFn (handleSquareClicked csMove 0 1) (0, 1) = pieceFn csMove (0, 0)) :=
  ⟨rfl, by decide, by decide, by decide,
    move_relocates_piece csMove 0 0 0 1 rfl (by decide) (by decide) (by decide)⟩

/-- C5 counterexample: in the reachable state where the white pawn at
`(0, 0)` is active with no candidates, clicking the empty non-candidate
square `(3, 3)` leaves the machine in `Active((3, 3))`, not `Idle`: the
claim that such a click deselects without selecting is false. -/
theorem empty_noncandidate_click_not_idle_cex :
    csActivePawn.activePos = some (0, 0) ∧
    (csActivePawn.board (3, 3)).moveable = false ∧
    ((3, 3) : Position) ≠ ((0, 0) : Position) ∧
    pieceFn csActivePawn (3, 3) = none ∧
    (handleSquareClicked csActivePawn 3 3).activePos = some (3, 3) := by
  refine ⟨rfl, rfl, by decide, rfl, by decide⟩

/-- Witness for the amended C5 at the same concrete state. -/
theorem empty_noncandidate_click_selects_witness :
    SelInv csActivePawn ∧ csActivePawn.activePos = some (0, 0) ∧ InBounds 3 3 ∧
      (csActivePawn.board (3, 3)).moveable = false ∧
      ((3, 3) : Position) ≠ ((0, 0) : Position) ∧ pieceFn csActivePawn (3, 3) = none ∧
      ((handleSquareClicked csActivePawn 3 3).activePos = some (3, 3) ∧
        ((handleSquareClicked csActivePawn 3 3).board (3, 3)).active = true ∧
        (handleSquareClicked csActivePawn 3 3).moveablePositions = [] ∧
        (∀ q, ((handleSquareClicked csActivePawn 3 3).board q).moveable = false)) :=
  ⟨selInv_csActivePawn, rfl, by decide, rfl, by decide, rfl,
    empty_noncandidate_click_selects csActivePawn 0 0 3 3 selInv_csActivePawn rfl (by decide)
      rfl (by decide) rfl⟩

/-- Witness for C6 at a concrete state: selecting the lone white pawn at
`(6, 4)` and clicking it again. -/
theorem select_deselect_roundtrip_witness :
    SelInv csPawnW ∧ csPawnW.activePos = none ∧
      pieceFn csPawnW (6, 4) = some ⟨PieceType.pawn, Color.white⟩ ∧ InBounds 6 4 ∧
      ((handleSquareClicked (handleSquareClicked csPawnW 6 4) 6 4).activePos = none ∧
        (handleSquareClicked (handleSquareClicked csPawnW 6 4) 6 4).moveablePositions = [] ∧
        (∀ q, ((handleSquareClicked (handleSquareClicked csPawnW 6 4) 6 4).board q).active
          = false) ∧
        (∀ q, ((handleSquareClicked (handleSquareClicked csPawnW 6 4) 6 4).board q).moveable
          = false)) :=
  ⟨selInv_mkState _, rfl, rfl, by decide,
    select_deselect_roundtrip csPawnW 6 4 ⟨PieceType.pawn, Color.white⟩ (selInv_mkState _)
      rfl rfl (by decide)⟩

/-- Witness for C7 at a concrete state: clicking the lone white pawn at
`(6, 4)` from the idle starting state. -/
theorem click_preserves_selection_invariant_witness :
    SelInv csPawnW ∧ InBounds 6 4 ∧
      (SelInv (handleSquareClicked csPawnW 6 4) ∧
        (∀ q1 q2, ((handleSquareClicked csPawnW 6 4).board q1).active = true →
          ((handleSquareClicked csPawnW 6 4).board q2).active = true → q1 = q2) ∧
        ((handleSquareClicked csPawnW 6 4).moveablePositions ≠ [] →
          (handleSquareClicked csPawnW 6 4).activePos ≠ none)) :=
  ⟨selInv_mkState _, by decide,
    click_preserves_selection_invariant csPawnW 6 4 (selInv_mkState _) (by decide)⟩

/-- C9 counterexample: projecting the moves of the lone white pawn at
`(6, 4)` changes `moveablePositions` (and the `moveable` flag of `(5, 4)`):
the computation of the candidate set mutates the board squares and
selection state, so it is not pure as claimed. -/
theorem projection_mutates_state_cex :
    csPawnW.moveablePositions = [] ∧
    (displayPotentialMoves csPawnW ⟨PieceType.pawn, Color.white⟩ 6 4).moveablePositions
      = [(5, 4)] ∧
    ((displayPotentialMoves csPawnW ⟨PieceType.pawn, Color.white⟩ 6 4).board (5, 4)).moveable
      = true ∧
    (csPawnW.board (5, 4)).moveable = false := by
  refine ⟨rfl, by decide, by decide, rfl⟩

/-- C9 amended: move projection is deterministic given the board snapshot
(it is a function of the state) and leaves piece placement, the `active`
flags and `activePos` unchanged; only the highlight state — `moveable`
flags, `moveablePositions` and displayed colors — is mutated. -/
theorem projection_preserves_pieces_active (s : GameState) (piece : Piece) (row col : Int) :
    (∀ q, pieceFn (displayPotentialMoves s piece row col) q = pieceFn s q) ∧
    (∀ q, ((displayPotentialMoves s piece row col).board q).active = (s.board q).active) ∧
    (displayPotentialMoves s piece row col).activePos = s.activePos :=
  ⟨(displayPotentialMoves_projStep s piece row col).pieces,
    (displayPotentialMoves_projStep s piece row col).actives,
    (displayPotentialMoves_projStep s piece row col).apos⟩
